import Mathlib

/-!
# Verification of the pdfata line-item pipeline (`app.py`)

Shallow embedding of the pure core of `app.py`: text normalization,
header location, table extraction, table selection, item filtering and
target-table population.  Python strings are modelled as lists of Unicode
code points (`List Nat`); Python's `str.strip`, `str.lower`, `str.upper`,
`str.isdigit`-style classes are modelled over the ASCII range, which is
the range exercised by every comparison the program performs.
-/

namespace Pdfata

/-- A Python string, as its list of Unicode code points. -/
abbrev PyStr := List Nat

/-- Code points of a Lean string literal (used for concrete inputs). -/
def str (s : String) : PyStr := s.toList.map Char.toNat

/-- Python whitespace test for `str.strip` (ASCII whitespace). -/
def isSpaceChar (c : Nat) : Bool :=
  decide (c = 32 ∨ c = 9 ∨ c = 10 ∨ c = 11 ∨ c = 12 ∨ c = 13)

/-- The character class of `re`'s `\d` (a decimal digit). -/
def isDigitChar (c : Nat) : Bool :=
  decide (48 ≤ c ∧ c ≤ 57)

/-- ASCII `str.lower` on one code point. -/
def lowerChar (c : Nat) : Nat :=
  if 65 ≤ c ∧ c ≤ 90 then c + 32 else c

/-- ASCII `str.upper` on one code point. -/
def upperChar (c : Nat) : Nat :=
  if 97 ≤ c ∧ c ≤ 122 then c - 32 else c

/-- Python `s.strip()`: drop whitespace from both ends. -/
def strip (s : PyStr) : PyStr :=
  ((s.dropWhile isSpaceChar).reverse.dropWhile isSpaceChar).reverse

/-- Python `s.lower()` (ASCII range). -/
def lower (s : PyStr) : PyStr := s.map lowerChar

/-- Python `s.upper()` (ASCII range). -/
def upper (s : PyStr) : PyStr := s.map upperChar

/-- `normalize_text` (app.py:35): trim surrounding whitespace.  The
`value or ""` coercion of a missing cell is applied by the callers that
can receive `None` (see `coerceTable`). -/
def normalize_text (s : PyStr) : PyStr := strip s

/-- `normalize_item_code` (app.py:39): keep only the digits; when no digit
remains, fall back to the trimmed, lower-cased text. -/
def normalize_item_code (v : PyStr) : PyStr :=
  let digits := v.filter isDigitChar
  if digits.isEmpty then lower (normalize_text v) else digits

/-- Python `pat in s` for a prefix position: `pat` begins `s`. -/
def startsWith : PyStr → PyStr → Bool
  | [], _ => true
  | _ :: _, [] => false
  | p :: ps, c :: cs => p == c && startsWith ps cs

/-- Python substring containment `pat in s`. -/
def hasSub (pat : PyStr) : PyStr → Bool
  | [] => startsWith pat []
  | c :: rest => startsWith pat (c :: rest) || hasSub pat rest

/-! ## `HEADER_HINTS` (app.py:26) -/

def itemHints : List PyStr :=
  [str "ITEM", str "Nº", str "N°", str "NUM", str "N. DO ITEM"]

def descriptionHints : List PyStr :=
  [str "DESCRI", str "ESPECIF", str "DESCRIÇÃO"]

def quantityHints : List PyStr :=
  [str "QUANT", str "QTD", str "QTDE", str "QUANTIDADE"]

def unitValueHints : List PyStr :=
  [str "VALOR UNIT", str "VLR UNIT", str "UNITÁRIO", str "UNIT"]

def totalValueHints : List PyStr :=
  [str "VALOR TOTAL", str "TOTAL (R$)", str "TOTAL"]

/-- The column map built by `find_header_indices`: one optional column
index per semantic role. -/
structure Mapping where
  item : Option Nat
  description : Option Nat
  quantity : Option Nat
  unit_value : Option Nat
  total_value : Option Nat
deriving DecidableEq

/-- `any(hint in cell for hint in hints)` (app.py:56). -/
def hintMatch (hints : List PyStr) (cell : PyStr) : Bool :=
  hints.any fun h => hasSub h cell

/-- One role's update for one column: `if key in mapping: continue`
keeps an existing assignment; otherwise the column is claimed when one of
the role's hints occurs in the cell (app.py:53-57). -/
def assignRole (cur : Option Nat) (hints : List PyStr) (col : Nat) (cell : PyStr) :
    Option Nat :=
  match cur with
  | some c => some c
  | none => if hintMatch hints cell then some col else none

/-- The column scan of app.py:51-57 over one upper-cased row. -/
def buildMapping (upperRow : List PyStr) : Mapping :=
  upperRow.enum.foldl
    (fun m p =>
      { item := assignRole m.item itemHints p.1 p.2
        description := assignRole m.description descriptionHints p.1 p.2
        quantity := assignRole m.quantity quantityHints p.1 p.2
        unit_value := assignRole m.unit_value unitValueHints p.1 p.2
        total_value := assignRole m.total_value totalValueHints p.1 p.2 })
    ⟨none, none, none, none, none⟩

/-- The mandatory-role test of app.py:58. -/
def mandatoryRoles (m : Mapping) : Bool :=
  m.item.isSome && m.description.isSome && m.quantity.isSome && m.unit_value.isSome

/-- Row scan of `find_header_indices` (app.py:47-59), carrying the
enumeration index. -/
def findHeaderAux : List (List PyStr) → Nat → Option (Nat × Mapping)
  | [], _ => none
  | row :: rest, idx =>
    let upperRow := row.map fun c => upper (normalize_text c)
    if upperRow.all fun c => c.isEmpty then findHeaderAux rest (idx + 1)
    else
      let m := buildMapping upperRow
      if mandatoryRoles m then some (idx, m) else findHeaderAux rest (idx + 1)

/-- `find_header_indices` (app.py:45). -/
def find_header_indices (table : List (List PyStr)) : Option (Nat × Mapping) :=
  findHeaderAux table 0

/-! ## Table extraction (app.py:63-102) -/

/-- One extracted record (`items` list element). -/
structure Item where
  item : PyStr
  description : PyStr
  quantity : PyStr
  unit_value : PyStr
  total_value : PyStr
deriving DecidableEq

/-- The cell accessor `get` of app.py:73-77: an unmapped role or an index
past the row's end yields the empty string. -/
def getCell (row : List PyStr) : Option Nat → PyStr
  | none => []
  | some col => row.getD col []

/-- `any(current.values())` (app.py:90): some field is non-empty. -/
def anyField (it : Item) : Bool :=
  !it.item.isEmpty || !it.description.isEmpty || !it.quantity.isEmpty ||
    !it.unit_value.isEmpty || !it.total_value.isEmpty

/-- Python `a or b` on strings. -/
def orElse (a b : PyStr) : PyStr := if a.isEmpty then b else a

/-- Loop state of `extract_table_items`: the committed records (newest
first), the record under construction, and whether that record has been
appended to the output list (Python aliases the appended dict with
`current`, so a continuation row also updates the list element). -/
structure ExtState where
  itemsRev : List Item
  current : Option Item
  appended : Bool

/-- The output list a state denotes: the pending record counts exactly
when it was appended. -/
def commitCurrent (s : ExtState) : List Item :=
  match s.current, s.appended with
  | some it, true => it :: s.itemsRev
  | _, _ => s.itemsRev

/-- The continuation-row merge of app.py:92-100 on a normalized row. -/
def mergeRow (m : Mapping) (row : List PyStr) (cur : Item) : Item :=
  { cur with
    description := strip (cur.description ++ 10 :: getCell row m.description)
    quantity :=
      if m.quantity.isSome && !(getCell row m.quantity).isEmpty then
        orElse (getCell row m.quantity) cur.quantity
      else cur.quantity
    unit_value :=
      if m.unit_value.isSome && !(getCell row m.unit_value).isEmpty then
        orElse (getCell row m.unit_value) cur.unit_value
      else cur.unit_value
    total_value :=
      if m.total_value.isSome && !(getCell row m.total_value).isEmpty then
        orElse (getCell row m.total_value) cur.total_value
      else cur.total_value }

/-- One iteration of the row loop of `extract_table_items`
(app.py:67-100). -/
def stepRow (m : Mapping) (s : ExtState) (rawRow : List PyStr) : ExtState :=
  let row := rawRow.map normalize_text
  if row.all fun c => c.isEmpty then
    { itemsRev := commitCurrent s, current := none, appended := false }
  else
    let item_code := getCell row m.item
    let desc_text := getCell row m.description
    if !item_code.isEmpty then
      let newItem : Item :=
        { item := item_code, description := desc_text
          quantity := getCell row m.quantity
          unit_value := getCell row m.unit_value
          total_value := getCell row m.total_value }
      { itemsRev := commitCurrent s, current := some newItem
        appended := anyField newItem }
    else
      match s.current with
      | some cur =>
        if !desc_text.isEmpty then { s with current := some (mergeRow m row cur) }
        else s
      | none => s

/-- `extract_table_items` (app.py:63). -/
def extract_table_items (table : List (List PyStr)) (header_idx : Nat)
    (m : Mapping) : List Item :=
  (commitCurrent ((table.drop (header_idx + 1)).foldl (stepRow m) ⟨[], none, false⟩)).reverse

/-! ## Table selection (app.py:105-133)

A PDF is what `pdfplumber` hands the code: pages, each a list of raw
tables whose cells may be `None`. -/

/-- A raw table from the document reader: rows of optional cell text. -/
abbrev RawTable := List (List (Option PyStr))

/-- The coercion of app.py:114: `[[cell or "" for cell in row] for row in
raw_table if row]` — drop empty row lists, map missing cells to `""`. -/
def coerceTable (raw : RawTable) : List (List PyStr) :=
  (raw.filter fun r => !r.isEmpty).map fun r => r.map fun c => c.getD []

/-- The three selection variables `best_table`, `best_header`,
`best_length` of app.py:108-110. -/
structure Best where
  table : Option (List (List PyStr))
  header : Option (Nat × Mapping)
  length : Nat

/-- One iteration of the candidate loop (app.py:113-127). -/
def considerTable (b : Best) (raw : RawTable) : Best :=
  let table := coerceTable raw
  if table.isEmpty then b
  else
    match find_header_indices table with
    | none => b
    | some (header_idx, m) =>
      let len := table.length - (header_idx + 1)
      if len = 0 then b
      else if b.table.isNone || decide (b.length < len) then
        { table := some table, header := some (header_idx, m), length := len }
      else b

/-- `extract_items_from_pdf` (app.py:105), for an already-opened document
(the I/O wrapper and its `RuntimeError` re-raise stay outside the model). -/
def extract_items_from_pdf (pdf : List (List RawTable)) : List Item :=
  let b := pdf.foldl (fun acc page => page.foldl considerTable acc) ⟨none, none, 0⟩
  match b.table, b.header with
  | some t, some (header_idx, m) =>
    if t.isEmpty then [] else extract_table_items t header_idx m
  | _, _ => []

/-- A qualifying candidate table, following §4.4 of the spec: a table
(after cell coercion) with a valid header and at least one row after it,
together with its count of rows after the header. -/
structure Candidate where
  table : List (List PyStr)
  header_idx : Nat
  mapping : Mapping
  len : Nat
deriving DecidableEq

/-- The candidate a raw table yields, if any. -/
def candOf (raw : RawTable) : Option Candidate :=
  let table := coerceTable raw
  if table.isEmpty then none
  else
    match find_header_indices table with
    | none => none
    | some (header_idx, m) =>
      let len := table.length - (header_idx + 1)
      if len = 0 then none else some ⟨table, header_idx, m, len⟩

/-- All candidates of a document, in page order then table order. -/
def candidates (pdf : List (List RawTable)) : List Candidate :=
  pdf.flatten.filterMap candOf

/-! ## Item filtering (app.py:141-154) -/

/-- `filter_items` (app.py:141). -/
def filter_items (items : List Item) (selected : List PyStr) : List Item :=
  if selected.isEmpty then items
  else
    items.filter fun it =>
      let code := normalize_text it.item
      if code.isEmpty then false
      else
        let nc := normalize_item_code code
        (selected.any fun s => normalize_item_code s == nc) || selected.contains code

/-! ## Template population (app.py:176-219)

A target-document table is its rows of cell texts; the document is its
list of tables (paragraph runs play no part in the claims below). -/

abbrev Row := List PyStr
abbrev Tbl := List Row

/-- How `fill_items_table` can fail: `IndexError` from `table.rows[0]` on
a rowless table, or the `RuntimeError` of app.py:195 when no table
matches. -/
inductive FillError where
  | indexError
  | noTable
deriving DecidableEq

/-- `" ".join(...)` (app.py:190). -/
def joinSpace (cells : List PyStr) : PyStr := List.intercalate (str " ") cells

/-- The concatenated upper-cased first-row text of a table, `none` when
the table has no row (where Python's `table.rows[0]` raises). -/
def tableHeaderText (t : Tbl) : Option PyStr :=
  match t with
  | [] => none
  | r0 :: _ => some (joinSpace (r0.map upper))

/-- The keyword test of app.py:191. -/
def headerMatches (h : PyStr) : Bool :=
  ([str "ITEM", str "QUANT"].all fun kw => hasSub kw h) && hasSub (str "VALOR") h

/-- Whether a table is recognized as the item table. -/
def tableMatches (t : Tbl) : Bool :=
  match tableHeaderText t with
  | none => false
  | some h => headerMatches h

/-- The target-table search loop of app.py:189-195, returning the index
of the first matching table. -/
def findTargetAux : List Tbl → Nat → Except FillError Nat
  | [], _ => .error .noTable
  | t :: rest, i =>
    match tableHeaderText t with
    | none => .error .indexError
    | some h => if headerMatches h then .ok i else findTargetAux rest (i + 1)

def findTargetTable (doc : List Tbl) : Except FillError Nat := findTargetAux doc 0

/-- `duplicate_row` (app.py:176): deep-copy row `row_idx` and append it. -/
def duplicate_row (t : Tbl) (row_idx : Nat) : Tbl := t ++ [t.getD row_idx []]

/-- The cell-writing loop of app.py:208-219 on one row: fixed column
positions, indices past the row's width skipped. -/
def writeItemRow (row : Row) (it : Item) : Row :=
  [(0, it.item), (1, it.description), (2, it.quantity),
      (3, it.unit_value), (4, it.total_value)].foldl
    (fun r p => if p.1 < r.length then r.set p.1 (normalize_text p.2) else r) row

/-- The `idx > 0` arm of the item loop: each later item appends a copy of
the current template row and writes into it. -/
def appendRows (templateIdx : Nat) : Tbl → List Item → Tbl
  | t, [] => t
  | t, it :: rest =>
    appendRows templateIdx (t ++ [writeItemRow (t.getD templateIdx []) it]) rest

/-- The item loop of app.py:202-219: the first item overwrites the
template row in place, the rest are appended copies. -/
def fillItemRows (t : Tbl) (templateIdx : Nat) (items : List Item) : Tbl :=
  match items with
  | [] => t
  | it :: rest =>
    appendRows templateIdx (t.set templateIdx (writeItemRow (t.getD templateIdx []) it)) rest

/-- `fill_items_table` (app.py:184).  The result pairs the outcome (an
error, or `none` for success) with the document state when the call
returns — on an error path the document is exactly the input, since the
code raises before any mutation. -/
def fill_items_table (doc : List Tbl) (items : List Item) :
    Option FillError × List Tbl :=
  if items.isEmpty then (none, doc)
  else
    match findTargetTable doc with
    | .error e => (some e, doc)
    | .ok i =>
      let t := doc.getD i []
      let t1 := if t.length < 2 then duplicate_row t (t.length - 1) else t
      let templateIdx := if 1 < t1.length then 1 else 0
      (none, doc.set i (fillItemRows t1 templateIdx items))

/-! ## Auxiliary predicates used by the theorems -/

/-- A row (strictly after the header) that starts a new record: not
entirely blank after normalization, with a non-empty mapped item cell. -/
def rowStartsItem (m : Mapping) (rawRow : List PyStr) : Bool :=
  !((rawRow.map normalize_text).all fun c => c.isEmpty) &&
    !(getCell (rawRow.map normalize_text) m.item).isEmpty

/-- Invariant of the extraction loop: committed records carry a non-empty
item code, and a record marked as appended exists and does too. -/
def InvState (s : ExtState) : Prop :=
  (∀ it ∈ s.itemsRev, it.item ≠ []) ∧
  (s.appended = true → ∃ c, s.current = some c ∧ c.item ≠ [])

/-- The `Best` the selector stores for a candidate. -/
def mkBest (c : Candidate) : Best :=
  ⟨some c.table, some (c.header_idx, c.mapping), c.len⟩

/-- `considerTable`, reformulated on the candidate a raw table yields. -/
def considerCand (b : Best) : Option Candidate → Best
  | none => b
  | some c =>
    if b.table.isNone || decide (b.length < c.len) then mkBest c else b

/-- The candidate a selector state denotes, with its stored length. -/
def toCand (b : Best) : Option Candidate :=
  match b.table, b.header with
  | some t, some p => some ⟨t, p.1, p.2, b.length⟩
  | _, _ => none

/-- Selector states with table and header slots filled in lockstep. -/
def GoodBest (b : Best) : Prop :=
  (b.table = none ∧ b.header = none) ∨ (b.table.isSome ∧ b.header.isSome = true)

/-- No whitespace at either end of a string. -/
def NoEdgeSpace (l : PyStr) : Prop :=
  (∀ x ∈ l.head?, isSpaceChar x = false) ∧ (∀ x ∈ l.getLast?, isSpaceChar x = false)

/-! ## Concrete inputs for counterexamples and witnesses -/

/-- A table whose code-bearing row already fills `quantity`, followed by
a continuation row that also supplies one. -/
def contTable : List (List PyStr) :=
  [[str "ITEM", str "DESCRIÇÃO", str "QUANT", str "VALOR UNIT"],
   [str "1", str "Widget", str "2", str "10,00"],
   [[], str "continued", str "5", []]]

def contMapping : Mapping := ⟨some 0, some 1, some 2, some 3, none⟩

/-- Three extracted items with codes `"3"`, `"4"`, `"10"`. -/
def fItem3 : Item := ⟨str "3", str "a", [], [], []⟩

def fItem4 : Item := ⟨str "4", str "b", [], [], []⟩

def fItem10 : Item := ⟨str "10", str "c", [], [], []⟩

def fItems : List Item := [fItem3, fItem4, fItem10]

def fSelected : List PyStr := [str "03", str "4"]

/-- A table whose single data row duplicates the header row. -/
def dupTable : List (List PyStr) :=
  [[str "ITEM", str "DESCRIÇÃO", str "QUANT", str "VALOR UNIT"],
   [str "ITEM", str "DESCRIÇÃO", str "QUANT", str "VALOR UNIT"]]

/-- Raw table with 3 rows after the header but a single extracted item
(two continuation rows). -/
def rawA : RawTable :=
  [[some (str "ITEM"), some (str "DESCRIÇÃO"), some (str "QUANT"), some (str "VALOR UNIT")],
   [some (str "1"), some (str "W"), some (str "2"), some (str "3")],
   [none, some (str "xx"), none, none],
   [none, some (str "yy"), none, none]]

/-- Raw table with 2 rows after the header, both extracted items. -/
def rawB : RawTable :=
  [[some (str "ITEM"), some (str "DESCRIÇÃO"), some (str "QUANT"), some (str "VALOR UNIT")],
   [some (str "1"), some (str "W"), some (str "2"), some (str "3")],
   [some (str "2"), some (str "V"), some (str "4"), some (str "6")]]

def selPdf : List (List RawTable) := [[rawA, rawB]]

/-- The candidate `rawB` yields. -/
def candB : Candidate := ⟨coerceTable rawB, 0, contMapping, 2⟩

/-- A target table consisting of a lone header row. -/
def wTbl : Tbl := [[str "ITEM", str "QUANTIDADE", str "VALOR"]]

def wDoc : List Tbl := [wTbl]

def wItems : List Item :=
  [⟨str "1", str "d", str "2", str "3", str "6"⟩,
   ⟨str "2", str "e", str "1", str "4", str "4"⟩]

/-- A target document with no recognizable item table. -/
def badDoc : List Tbl := [[[str "nothing here"]]]

/-! ## Claim C8 — empty selection is the identity filter -/

/-- Claim C8: `filter_items` with an empty selection returns the input
list unchanged — same elements, same order, same length. -/
theorem claim8_filter_items_empty_selection (items : List Item) :
    filter_items items [] = items := rfl

/-! ## Claim C2 — `"03"` does not match the item coded `"3"` -/

/-- Claim C2 counterexample: with selection `["03", "4"]` over items
coded `"3"`, `"4"`, `"10"`, the result is not the claimed pair of items
`"3"` and `"4"`: `normalize_item_code` keeps digits verbatim, so `"03"`
stays `"03"` and matches neither the normalized code `"3"` nor the raw
code. -/
theorem claim2_counterexample :
    filter_items fItems fSelected ≠ [fItem3, fItem4] := by decide

/-- Claim C2 (amended): the same filtering returns exactly the item
coded `"4"` — the leading zero of `"03"` is preserved by digit
normalization, so the item coded `"3"` is excluded. -/
theorem claim2_filter_leading_zero :
    filter_items fItems fSelected = [fItem4] := by decide

/-! ## Claim C1 — continuation rows overwrite numeric fields -/

/-- Claim C1 counterexample: the code-bearing row supplies
`quantity = "2"`, the continuation row supplies `"5"`, and the extracted
record ends with `"5"` — the value taken from the code-bearing row is
overwritten, while the claim says it never is. -/
theorem claim1_counterexample :
    find_header_indices contTable = some (0, contMapping) ∧
    (extract_table_items contTable 0 contMapping).map Item.quantity = [str "5"] ∧
    str "5" ≠ str "2" := by
  refine ⟨by decide, by decide, by decide⟩

/-- Claim C1 (amended): in the continuation-row merge, for each of
`quantity`, `unit_value`, `total_value`, a non-empty value on the
continuation row replaces the current record's value outright (whether or
not that field was blank); when the role is unmapped or the row's value
is empty, the field is kept.  The item code is never touched. -/
theorem claim1_merge_overwrites (m : Mapping) (row : List PyStr) (cur : Item) :
    (mergeRow m row cur).item = cur.item ∧
    (mergeRow m row cur).quantity =
      (if m.quantity.isSome && !(getCell row m.quantity).isEmpty
        then getCell row m.quantity else cur.quantity) ∧
    (mergeRow m row cur).unit_value =
      (if m.unit_value.isSome && !(getCell row m.unit_value).isEmpty
        then getCell row m.unit_value else cur.unit_value) ∧
    (mergeRow m row cur).total_value =
      (if m.total_value.isSome && !(getCell row m.total_value).isEmpty
        then getCell row m.total_value else cur.total_value) := by
  refine ⟨rfl, ?_, ?_, ?_⟩ <;>
  · simp only [mergeRow]
    split
    next h =>
      rw [Bool.and_eq_true] at h
      obtain ⟨-, h2⟩ := h
      rw [Bool.not_eq_true'] at h2
      simp [orElse, h2]
    next h => rfl

/-! ## Claim C4 counterexample — a duplicated header row yields a record -/

/-- Claim C4 counterexample: in a table whose only data row duplicates
the header row, the extractor produces one record (the header text's item
cell is non-empty), while the claim says a header-row duplicate never
produces a record. -/
theorem claim4_counterexample :
    find_header_indices dupTable = some (0, contMapping) ∧
    extract_table_items dupTable 0 contMapping =
      [⟨str "ITEM", str "DESCRIÇÃO", str "QUANT", str "VALOR UNIT", []⟩] := by
  refine ⟨by decide, by decide⟩

/-! ## The extraction loop's counting invariant (claims C4, C10) -/

theorem mem_commitCurrent {s : ExtState} {it : Item}
    (h : it ∈ commitCurrent s) (hinv : InvState s) : it.item ≠ [] := by
  obtain ⟨rev, cur, app⟩ := s
  obtain ⟨h1, h2⟩ := hinv
  cases cur with
  | none =>
    cases app <;> exact h1 it h
  | some c =>
    cases app with
    | false => exact h1 it h
    | true =>
      obtain ⟨c', hc', hne⟩ := h2 rfl
      cases hc'
      rcases List.mem_cons.1 h with rfl | hmem
      · exact hne
      · exact h1 it hmem

theorem stepRow_spec (m : Mapping) (s : ExtState) (row : List PyStr)
    (hinv : InvState s) :
    InvState (stepRow m s row) ∧
    (commitCurrent (stepRow m s row)).length =
      (commitCurrent s).length + (if rowStartsItem m row then 1 else 0) := by
  obtain ⟨rev, cur, app⟩ := s
  by_cases hb : ((row.map normalize_text).all fun c => c.isEmpty) = true
  · have hr : rowStartsItem m row = false := by
      unfold rowStartsItem
      rw [hb]
      rfl
    rw [stepRow, if_pos hb, hr]
    refine ⟨⟨fun it h => mem_commitCurrent h hinv, ?_⟩, by simp [commitCurrent]⟩
    intro h
    simp at h
  · by_cases hi : (getCell (row.map normalize_text) m.item).isEmpty = true
    · -- no item code on this row
      have hr : rowStartsItem m row = false := by
        unfold rowStartsItem
        rw [hi]
        simp
      rw [stepRow, if_neg hb, if_neg (by rw [hi]; decide), hr]
      cases cur with
      | none => exact ⟨hinv, by simp⟩
      | some cur =>
        dsimp only
        by_cases hd : (getCell (row.map normalize_text) m.description).isEmpty = true
        · rw [if_neg (by rw [hd]; decide)]
          exact ⟨hinv, by simp⟩
        · simp only [Bool.not_eq_true] at hd
          rw [if_pos (by rw [hd]; rfl)]
          obtain ⟨h1, h2⟩ := hinv
          refine ⟨⟨h1, fun happ => ?_⟩, ?_⟩
          · obtain ⟨c', hc', hne⟩ := h2 happ
            cases hc'
            exact ⟨_, rfl, hne⟩
          · cases app <;> simp [commitCurrent]
    · -- a code-bearing row
      simp only [Bool.not_eq_true] at hb hi
      have hr : rowStartsItem m row = true := by
        unfold rowStartsItem
        rw [hb, hi]
        rfl
      rw [stepRow, if_neg (by rw [hb]; decide), if_pos (by rw [hi]; rfl), hr]
      have hne : getCell (row.map normalize_text) m.item ≠ [] := fun hcon => by
        rw [hcon] at hi
        exact absurd hi (by decide)
      refine ⟨⟨fun it h => mem_commitCurrent h hinv, fun _ => ⟨_, rfl, hne⟩⟩, ?_⟩
      have hany : anyField
          { item := getCell (row.map normalize_text) m.item
            description := getCell (row.map normalize_text) m.description
            quantity := getCell (row.map normalize_text) m.quantity
            unit_value := getCell (row.map normalize_text) m.unit_value
            total_value := getCell (row.map normalize_text) m.total_value } = true := by
        simp [anyField, hi]
      simp [commitCurrent, hany]

theorem foldl_stepRow_spec (m : Mapping) :
    ∀ (rows : List (List PyStr)) (s : ExtState), InvState s →
      InvState (rows.foldl (stepRow m) s) ∧
      (commitCurrent (rows.foldl (stepRow m) s)).length =
        (commitCurrent s).length + rows.countP (rowStartsItem m)
  | [], s, h => ⟨h, by simp⟩
  | row :: rows, s, h => by
    have h1 := stepRow_spec m s row h
    have h2 := foldl_stepRow_spec m rows (stepRow m s row) h1.1
    refine ⟨h2.1, ?_⟩
    rw [List.foldl_cons, h2.2, h1.2, List.countP_cons]
    omega

/-- The extractor's output length is exactly the number of rows after the
header that are non-blank and carry a non-empty item cell. -/
theorem extract_length_eq (table : List (List PyStr)) (header_idx : Nat)
    (m : Mapping) :
    (extract_table_items table header_idx m).length =
      ((table.drop (header_idx + 1)).filter (rowStartsItem m)).length := by
  have h0 : InvState ⟨[], none, false⟩ :=
    ⟨fun it h => absurd h (List.not_mem_nil it), fun h => absurd h (by decide)⟩
  have h := foldl_stepRow_spec m (table.drop (header_idx + 1)) ⟨[], none, false⟩ h0
  rw [extract_table_items, List.length_reverse, h.2, List.countP_eq_length_filter]
  simp [commitCurrent]

/-- Every extracted record carries a non-empty item code. -/
theorem extract_mem_item_ne (table : List (List PyStr)) (header_idx : Nat)
    (m : Mapping) :
    ∀ it ∈ extract_table_items table header_idx m, it.item ≠ [] := by
  have h0 : InvState ⟨[], none, false⟩ :=
    ⟨fun it h => absurd h (List.not_mem_nil it), fun h => absurd h (by decide)⟩
  have h := foldl_stepRow_spec m (table.drop (header_idx + 1)) ⟨[], none, false⟩ h0
  intro it hit
  rw [extract_table_items, List.mem_reverse] at hit
  exact mem_commitCurrent hit h.1

/-- Claim C10: every record returned by `extract_table_items` has a
non-empty item field, and every non-blank row after the header whose
mapped item cell is non-empty appends exactly one record — the
`any(current.values())` guard never rejects a new record, since the item
field is non-empty on that branch. -/
theorem claim10_item_nonempty_and_exact_count (table : List (List PyStr))
    (header_idx : Nat) (m : Mapping) :
    (∀ it ∈ extract_table_items table header_idx m, it.item ≠ []) ∧
    (extract_table_items table header_idx m).length =
      ((table.drop (header_idx + 1)).filter (rowStartsItem m)).length :=
  ⟨extract_mem_item_ne table header_idx m, extract_length_eq table header_idx m⟩

/-- Claim C10 witness: the record extracted from `contTable` is in the
output and has a non-empty item field. -/
theorem claim10_witness :
    (⟨str "1", str "Widget\ncontinued", str "5", str "10,00", []⟩ : Item) ∈
        extract_table_items contTable 0 contMapping ∧
    (⟨str "1", str "Widget\ncontinued", str "5", str "10,00", []⟩ : Item).item ≠ [] :=
  ⟨by decide,
    (claim10_item_nonempty_and_exact_count contTable 0 contMapping).1 _ (by decide)⟩

/-- Claim C4 (amended): the extractor's output has length at most the
number of rows after the header, and at most the number of non-blank rows
after the header (a blank row never produces a record); a duplicate of
the header row, however, does produce a record, since its item cell is
the non-empty header text (see the counterexample). -/
theorem claim4_amended_bounds (table : List (List PyStr)) (header_idx : Nat)
    (m : Mapping) :
    (extract_table_items table header_idx m).length ≤
      (table.drop (header_idx + 1)).length ∧
    (extract_table_items table header_idx m).length ≤
      ((table.drop (header_idx + 1)).filter fun r =>
        !((r.map normalize_text).all fun c => c.isEmpty)).length := by
  rw [extract_length_eq]
  constructor
  · exact List.length_filter_le _ _
  · have hcongr :
        (table.drop (header_idx + 1)).filter (rowStartsItem m) =
          (table.drop (header_idx + 1)).filter fun r =>
            (!(getCell (r.map normalize_text) m.item).isEmpty &&
              !((r.map normalize_text).all fun c => c.isEmpty)) := by
      refine List.filter_congr fun r _ => ?_
      rw [rowStartsItem, Bool.and_comm]
    rw [hcongr, ← List.filter_filter]
    exact (List.filter_sublist _).length_le

/-! ## Template population (claims C6, C7) -/

theorem appendRows_length (k : Nat) (items : List Item) :
    ∀ t : Tbl, (appendRows k t items).length = t.length + items.length := by
  induction items with
  | nil => intro t; rfl
  | cons it rest ih =>
    intro t
    rw [appendRows, ih]
    simp [List.length_append]
    omega

theorem fillItemRows_length_cons (t : Tbl) (k : Nat) (it : Item)
    (rest : List Item) :
    (fillItemRows t k (it :: rest)).length = t.length + rest.length := by
  rw [fillItemRows, appendRows_length, List.length_set]

theorem findTargetAux_ok {l : List Tbl} {j i : Nat}
    (h : findTargetAux l j = .ok i) : j ≤ i ∧ i - j < l.length := by
  induction l generalizing j with
  | nil => exact absurd h (by rw [findTargetAux]; intro hcon; cases hcon)
  | cons t rest ih =>
    rw [findTargetAux] at h
    cases htxt : tableHeaderText t with
    | none =>
      rw [htxt] at h
      cases h
    | some hdr =>
      rw [htxt] at h
      dsimp only at h
      by_cases hm : headerMatches hdr = true
      · rw [if_pos hm] at h
        injection h with h
        subst h
        exact ⟨Nat.le_refl _, by simp⟩
      · rw [if_neg hm] at h
        have hih := ih h
        refine ⟨by omega, ?_⟩
        rw [List.length_cons]
        omega

theorem findTargetAux_noMatch :
    ∀ (l : List Tbl) (j : Nat), (∀ t ∈ l, t ≠ []) →
      (∀ t ∈ l, tableMatches t = false) →
      findTargetAux l j = .error .noTable
  | [], _, _, _ => rfl
  | t :: rest, j, hrows, hmatch => by
    rw [findTargetAux]
    cases htx : tableHeaderText t with
    | none =>
      exfalso
      have hne := hrows t (List.mem_cons_self t rest)
      cases t with
      | nil => exact hne rfl
      | cons r rs => rw [tableHeaderText] at htx; cases htx
    | some hdr =>
      have hm : headerMatches hdr = false := by
        have h := hmatch t (List.mem_cons_self t rest)
        simp only [tableMatches, htx] at h
        exact h
      dsimp only
      rw [if_neg (by rw [hm]; decide)]
      exact findTargetAux_noMatch rest (j + 1)
        (fun x hx => hrows x (List.mem_cons_of_mem _ hx))
        (fun x hx => hmatch x (List.mem_cons_of_mem _ hx))

/-- Claim C6: on a located target table with a single (header) row and a
non-empty item list, `fill_items_table` succeeds and the final row count
of that table is `1 + len(items)` — the lone row is duplicated once
before any item is written. -/
theorem claim6_single_row_fill (doc : List Tbl) (items : List Item) (i : Nat)
    (hne : items ≠ [])
    (hfind : findTargetTable doc = .ok i)
    (hone : (doc.getD i []).length = 1) :
    (fill_items_table doc items).1 = none ∧
    ((fill_items_table doc items).2.getD i []).length = 1 + items.length := by
  have hlt : i < doc.length := by
    have := findTargetAux_ok (l := doc) (j := 0) hfind
    omega
  obtain ⟨it, rest, rfl⟩ := List.exists_cons_of_ne_nil hne
  rw [fill_items_table, if_neg (by simp), hfind]
  dsimp only
  have hset : ∀ X : Tbl, (doc.set i X).getD i [] = X := fun X => by
    rw [List.getD_eq_getElem?_getD, List.getElem?_set_self hlt, Option.getD_some]
  rw [if_pos (by omega)]
  have hdup : (duplicate_row (doc.getD i []) ((doc.getD i []).length - 1)).length = 2 := by
    rw [duplicate_row, List.length_append, hone]
    rfl
  rw [if_pos (by omega)]
  refine ⟨rfl, ?_⟩
  rw [hset, fillItemRows_length_cons, hdup]
  simp
  omega

/-- Claim C6 witness: a one-row target table filled with two items ends
with three rows. -/
theorem claim6_witness :
    wItems ≠ [] ∧ findTargetTable wDoc = Except.ok 0 ∧
    (wDoc.getD 0 []).length = 1 ∧
    (fill_items_table wDoc wItems).1 = none ∧
    ((fill_items_table wDoc wItems).2.getD 0 []).length = 1 + wItems.length := by
  refine ⟨by decide, rfl, by decide, ?_, ?_⟩
  · exact (claim6_single_row_fill wDoc wItems 0 (by decide) rfl (by decide)).1
  · exact (claim6_single_row_fill wDoc wItems 0 (by decide) rfl (by decide)).2

/-- Claim C7: with a non-empty item list, when no (non-rowless) table of
the target document has a first row whose concatenated upper-cased text
contains `"ITEM"`, `"QUANT"` and `"VALOR"`, `fill_items_table` fails with
the no-table error and the document is returned unmodified. -/
theorem claim7_no_target_table (doc : List Tbl) (items : List Item)
    (hne : items ≠ [])
    (hrows : ∀ t ∈ doc, t ≠ [])
    (hnomatch : ∀ t ∈ doc, tableMatches t = false) :
    fill_items_table doc items = (some FillError.noTable, doc) := by
  have hfind : findTargetTable doc = .error .noTable :=
    findTargetAux_noMatch doc 0 hrows hnomatch
  rw [fill_items_table, if_neg (by simpa [List.isEmpty_iff] using hne), hfind]

/-- Claim C7 witness: a document with one non-matching table is returned
unchanged together with the no-table error. -/
theorem claim7_witness :
    fill_items_table badDoc wItems = (some FillError.noTable, badDoc) :=
  claim7_no_target_table badDoc wItems (by decide) (by decide) (by decide)

/-! ## The table selector as an argmax (claims C3, C5) -/

theorem considerTable_eq (b : Best) (raw : RawTable) :
    considerTable b raw = considerCand b (candOf raw) := by
  rw [considerTable, candOf]
  by_cases he : (coerceTable raw).isEmpty = true
  · rw [if_pos he, if_pos he]
    rfl
  · rw [if_neg he, if_neg he]
    cases hf : find_header_indices (coerceTable raw) with
    | none => rfl
    | some p =>
      obtain ⟨hidx, m⟩ := p
      dsimp only
      by_cases hlen : (coerceTable raw).length - (hidx + 1) = 0
      · rw [if_pos hlen, if_pos hlen]
        rfl
      · rw [if_neg hlen, if_neg hlen]
        rfl

theorem foldl_considerTable (ts : List RawTable) :
    ∀ b : Best, ts.foldl considerTable b =
      (ts.filterMap candOf).foldl (fun acc c => considerCand acc (some c)) b := by
  induction ts with
  | nil => intro b; rfl
  | cons raw ts ih =>
    intro b
    rw [List.foldl_cons, considerTable_eq, List.filterMap_cons]
    cases hc : candOf raw with
    | none => exact ih b
    | some c => rw [List.foldl_cons]; exact ih _

theorem toCand_foldl (l : List Candidate) :
    ∀ b : Best, GoodBest b →
      toCand (l.foldl (fun acc c => considerCand acc (some c)) b) =
        l.foldl (List.argAux fun x y => Candidate.len y < Candidate.len x) (toCand b) ∧
      GoodBest (l.foldl (fun acc c => considerCand acc (some c)) b) := by
  induction l with
  | nil => exact fun b hb => ⟨rfl, hb⟩
  | cons c l ih =>
    intro b hb
    rw [List.foldl_cons, List.foldl_cons]
    have hstep : toCand (considerCand b (some c)) =
        List.argAux (fun x y => Candidate.len y < Candidate.len x) (toCand b) c ∧
        GoodBest (considerCand b (some c)) := by
      obtain ⟨bt, bh, bl⟩ := b
      rcases hb with ⟨h1, h2⟩ | ⟨h1, h2⟩
      · cases h1
        cases h2
        exact ⟨rfl, Or.inr ⟨rfl, rfl⟩⟩
      · cases bt with
        | none => simp at h1
        | some t =>
          cases bh with
          | none => simp at h2
          | some p =>
            simp only [considerCand, toCand, mkBest, List.argAux]
            by_cases hlt : bl < c.len
            · rw [if_pos (by simp [hlt]), if_pos hlt]
              exact ⟨rfl, Or.inr ⟨rfl, rfl⟩⟩
            · rw [if_neg (by simp [hlt]), if_neg hlt]
              exact ⟨rfl, Or.inr ⟨rfl, rfl⟩⟩
    rw [← hstep.1]
    exact ih (considerCand b (some c)) hstep.2

theorem candidates_table_ne {pdf : List (List RawTable)} {c : Candidate}
    (hc : c ∈ candidates pdf) : c.table ≠ [] := by
  rw [candidates, List.mem_filterMap] at hc
  obtain ⟨raw, -, hraw⟩ := hc
  rw [candOf] at hraw
  by_cases he : (coerceTable raw).isEmpty = true
  · rw [if_pos he] at hraw
    cases hraw
  · rw [if_neg he] at hraw
    cases hf : find_header_indices (coerceTable raw) with
    | none => rw [hf] at hraw; cases hraw
    | some p =>
      obtain ⟨hidx, m⟩ := p
      rw [hf] at hraw
      dsimp only at hraw
      by_cases hlen : (coerceTable raw).length - (hidx + 1) = 0
      · rw [if_pos hlen] at hraw
        cases hraw
      · rw [if_neg hlen] at hraw
        injection hraw with hraw
        subst hraw
        dsimp only
        intro hcon
        rw [hcon] at he
        exact he rfl

/-- The selector's fold equals the first length-maximal candidate:
`List.argmax` keeps the earlier element on ties, exactly as the strict
`length > best_length` comparison does. -/
theorem selector_eq (pdf : List (List RawTable)) :
    extract_items_from_pdf pdf =
      match (candidates pdf).argmax Candidate.len with
      | none => []
      | some c => extract_table_items c.table c.header_idx c.mapping := by
  rw [extract_items_from_pdf]
  have hflat : pdf.foldl (fun acc page => page.foldl considerTable acc)
        (⟨none, none, 0⟩ : Best) =
      pdf.flatten.foldl considerTable ⟨none, none, 0⟩ :=
    (List.foldl_flatten _ _ _).symm
  rw [hflat, foldl_considerTable]
  have h := toCand_foldl (pdf.flatten.filterMap candOf) ⟨none, none, 0⟩
    (Or.inl ⟨rfl, rfl⟩)
  rw [show toCand (⟨none, none, 0⟩ : Best) = none from rfl] at h
  have hargmax : (candidates pdf).argmax Candidate.len =
      toCand ((pdf.flatten.filterMap candOf).foldl
        (fun acc c => considerCand acc (some c)) ⟨none, none, 0⟩) := by
    rw [candidates, List.argmax, ← h.1]
  rw [hargmax]
  generalize hB : (pdf.flatten.filterMap candOf).foldl
      (fun acc c => considerCand acc (some c)) (⟨none, none, 0⟩ : Best) = B
  rw [hB] at h
  obtain ⟨bt, bh, bl⟩ := B
  rcases h.2 with ⟨h1, h2⟩ | ⟨h1, h2⟩
  · cases h1
    cases h2
    rfl
  · cases bt with
    | none => simp at h1
    | some t =>
      cases bh with
      | none => simp at h2
      | some p =>
        have harg : (candidates pdf).argmax Candidate.len =
            some ⟨t, p.1, p.2, bl⟩ := by
          rw [hargmax, hB]
          rfl
        have hmem : (⟨t, p.1, p.2, bl⟩ : Candidate) ∈ candidates pdf :=
          List.argmax_mem (Option.mem_def.2 harg)
        have hne : t ≠ [] := candidates_table_ne hmem
        have hemp : t.isEmpty = false := by
          cases htt : t.isEmpty
          · rfl
          · exact absurd (List.isEmpty_iff.1 htt) hne
        dsimp only [toCand]
        rw [if_neg (by rw [hemp]; decide)]

/-- Claim C5: `extract_items_from_pdf` considers every table on every
page having a valid header and at least one row after it, and returns
the extraction of the candidate whose count of rows after the header is
greatest, the first candidate found (page order, then table order)
winning ties — `List.argmax` returns the first maximizer; with no
candidate the result is the empty list. -/
theorem claim5_selector_argmax (pdf : List (List RawTable)) :
    extract_items_from_pdf pdf =
      match (candidates pdf).argmax Candidate.len with
      | none => []
      | some c => extract_table_items c.table c.header_idx c.mapping :=
  selector_eq pdf

/-- Claim C3 counterexample: in `selPdf` the selector keeps the table
with 3 rows after its header but only 1 extracted item, while the other
candidate's extraction has 2 items — the returned list is shorter than
another candidate's extraction, contradicting the claim. -/
theorem claim3_counterexample :
    (extract_items_from_pdf selPdf).length = 1 ∧
    find_header_indices (coerceTable rawB) = some (0, contMapping) ∧
    (extract_table_items (coerceTable rawB) 0 contMapping).length = 2 ∧
    (extract_items_from_pdf selPdf).length <
      (extract_table_items (coerceTable rawB) 0 contMapping).length := by
  refine ⟨by decide, by decide, by decide, by decide⟩

/-- Claim C3 (amended): the kept candidate maximizes the count of rows
after the header (not the extracted-item count): for every candidate, the
selector's result is the extraction of some candidate whose row count is
at least that candidate's. -/
theorem claim3_amended_row_count_max (pdf : List (List RawTable))
    (c : Candidate) (hc : c ∈ candidates pdf) :
    ∃ b ∈ candidates pdf,
      extract_items_from_pdf pdf =
        extract_table_items b.table b.header_idx b.mapping ∧
      c.len ≤ b.len := by
  cases hb : (candidates pdf).argmax Candidate.len with
  | none =>
    rw [List.argmax_eq_none] at hb
    rw [hb] at hc
    cases hc
  | some b =>
    have hmem : b ∈ (candidates pdf).argmax Candidate.len := by rw [hb]; rfl
    refine ⟨b, List.argmax_mem hmem, ?_, List.le_of_mem_argmax hc hmem⟩
    rw [selector_eq, hb]

/-- Claim C3 witness: instantiated on `selPdf` and its second
candidate. -/
theorem claim3_witness :
    ∃ b ∈ candidates selPdf,
      extract_items_from_pdf selPdf =
        extract_table_items b.table b.header_idx b.mapping ∧
      candB.len ≤ b.len :=
  claim3_amended_row_count_max selPdf candB (by decide)

/-! ## Normalization lemmas (claim C9) -/

theorem isSpaceChar_lowerChar (c : Nat) :
    isSpaceChar (lowerChar c) = isSpaceChar c := by
  simp only [lowerChar, isSpaceChar]
  split
  next h => rw [decide_eq_decide]; omega
  next h => rfl

theorem isDigitChar_lowerChar (c : Nat) :
    isDigitChar (lowerChar c) = isDigitChar c := by
  simp only [lowerChar, isDigitChar]
  split
  next h => rw [decide_eq_decide]; omega
  next h => rfl

theorem lowerChar_lowerChar (c : Nat) :
    lowerChar (lowerChar c) = lowerChar c := by
  simp only [lowerChar]
  split_ifs <;> omega

theorem dropWhile_map_comm (f : Nat → Nat) (p : Nat → Bool)
    (hp : ∀ c, p (f c) = p c) (l : PyStr) :
    (l.map f).dropWhile p = (l.dropWhile p).map f := by
  induction l with
  | nil => rfl
  | cons a l ih =>
    by_cases h : p a = true
    · rw [List.map_cons, List.dropWhile_cons, hp, if_pos h, ih,
        List.dropWhile_cons, if_pos h]
    · rw [List.map_cons, List.dropWhile_cons, hp, if_neg h,
        List.dropWhile_cons, if_neg h, List.map_cons]

theorem head?_dropWhile (p : Nat → Bool) (l : PyStr) :
    ∀ x ∈ (l.dropWhile p).head?, p x = false := by
  induction l with
  | nil => intro x hx; cases hx
  | cons a l ih =>
    rw [List.dropWhile_cons]
    by_cases h : p a = true
    · rw [if_pos h]; exact ih
    · simp only [Bool.not_eq_true] at h
      rw [if_neg (by rw [h]; decide)]
      intro x hx
      rw [List.head?_cons, Option.mem_def] at hx
      injection hx with hx
      rw [← hx]
      exact h

theorem dropWhile_eq_self_of_head (p : Nat → Bool) (l : PyStr)
    (h : ∀ x ∈ l.head?, p x = false) : l.dropWhile p = l := by
  cases l with
  | nil => rfl
  | cons a l =>
    have ha : p a = false := h a (by rw [List.head?_cons]; rfl)
    rw [List.dropWhile_cons, ha]
    rfl

theorem getLast?_suffix_eq {d t l : PyStr} (ht : t ++ d = l) (hd : d ≠ []) :
    d.getLast? = l.getLast? := by
  rw [← ht, List.getLast?_append, Option.or_of_isSome (List.getLast?_isSome.2 hd)]

theorem strip_sublist (l : PyStr) : (strip l).Sublist l := by
  rw [strip]
  have h1 := (List.dropWhile_sublist (l := (l.dropWhile isSpaceChar).reverse)
    isSpaceChar).reverse
  rw [List.reverse_reverse] at h1
  exact h1.trans (List.dropWhile_sublist _)

theorem noEdgeSpace_strip (l : PyStr) : NoEdgeSpace (strip l) := by
  constructor
  · intro x hx
    rw [strip, List.head?_reverse] at hx
    cases hC : (l.dropWhile isSpaceChar).reverse.dropWhile isSpaceChar with
    | nil => rw [hC] at hx; cases hx
    | cons a d =>
      obtain ⟨t, ht⟩ := List.dropWhile_suffix
        (l := (l.dropWhile isSpaceChar).reverse) isSpaceChar
      have hlast : ((l.dropWhile isSpaceChar).reverse.dropWhile
            isSpaceChar).getLast? = (l.dropWhile isSpaceChar).reverse.getLast? :=
        getLast?_suffix_eq ht (by rw [hC]; intro hcon; cases hcon)
      rw [hlast, List.getLast?_reverse] at hx
      exact head?_dropWhile isSpaceChar l x hx
  · intro x hx
    rw [strip, List.getLast?_reverse] at hx
    exact head?_dropWhile isSpaceChar _ x hx

theorem noEdgeSpace_lower {l : PyStr} (h : NoEdgeSpace l) :
    NoEdgeSpace (lower l) := by
  obtain ⟨h1, h2⟩ := h
  constructor
  · intro x hx
    rw [lower, List.head?_map] at hx
    cases hh : l.head? with
    | none => rw [hh] at hx; cases hx
    | some a =>
      rw [hh, Option.mem_def] at hx
      injection hx with hx
      rw [← hx, isSpaceChar_lowerChar]
      exact h1 a (by rw [hh]; rfl)
  · intro x hx
    rw [lower, List.getLast?_map] at hx
    cases hh : l.getLast? with
    | none => rw [hh] at hx; cases hx
    | some a =>
      rw [hh, Option.mem_def] at hx
      injection hx with hx
      rw [← hx, isSpaceChar_lowerChar]
      exact h2 a (by rw [hh]; rfl)

theorem strip_eq_self {l : PyStr} (h : NoEdgeSpace l) : strip l = l := by
  obtain ⟨h1, h2⟩ := h
  rw [strip, dropWhile_eq_self_of_head _ _ h1, dropWhile_eq_self_of_head, List.reverse_reverse]
  intro x hx
  rw [List.head?_reverse] at hx
  exact h2 x hx

theorem filter_digit_strip {l : PyStr} (h : l.filter isDigitChar = []) :
    (strip l).filter isDigitChar = [] := by
  have hsub := (strip_sublist l).filter isDigitChar
  rw [h] at hsub
  exact List.sublist_nil.1 hsub

theorem filter_digit_lower {l : PyStr} (h : l.filter isDigitChar = []) :
    (lower l).filter isDigitChar = [] := by
  rw [lower, List.filter_map,
    show isDigitChar ∘ lowerChar = isDigitChar from funext isDigitChar_lowerChar, h]
  rfl

theorem strip_lower_comm (l : PyStr) : strip (lower l) = lower (strip l) := by
  rw [lower, strip, dropWhile_map_comm lowerChar isSpaceChar isSpaceChar_lowerChar,
    ← List.map_reverse, dropWhile_map_comm lowerChar isSpaceChar isSpaceChar_lowerChar,
    ← List.map_reverse, strip, lower]

theorem lower_lower (l : PyStr) : lower (lower l) = lower l := by
  rw [lower, lower, List.map_map]
  exact List.map_congr_left fun c _ => lowerChar_lowerChar c

theorem filter_digit_filter_digit (x : PyStr) :
    (x.filter isDigitChar).filter isDigitChar = x.filter isDigitChar :=
  List.filter_eq_self.2 fun _ ha => List.of_mem_filter ha

/-- Claim C9: `normalize_item_code` is idempotent. -/
theorem claim9_normalize_item_code_idem (x : PyStr) :
    normalize_item_code (normalize_item_code x) = normalize_item_code x := by
  by_cases hd : (x.filter isDigitChar).isEmpty = true
  · have hd' : x.filter isDigitChar = [] := List.isEmpty_iff.1 hd
    have hx : normalize_item_code x = lower (normalize_text x) := by
      rw [normalize_item_code, if_pos hd]
    rw [hx]
    have hr : (lower (normalize_text x)).filter isDigitChar = [] :=
      filter_digit_lower (filter_digit_strip hd')
    rw [normalize_item_code, if_pos (by rw [hr]; rfl)]
    have hnes : NoEdgeSpace (lower (strip x)) :=
      noEdgeSpace_lower (noEdgeSpace_strip x)
    show lower (strip (lower (strip x))) = lower (strip x)
    rw [strip_eq_self hnes]
    exact lower_lower (strip x)
  · simp only [Bool.not_eq_true] at hd
    have hx : normalize_item_code x = x.filter isDigitChar := by
      rw [normalize_item_code, if_neg (by rw [hd]; decide)]
    rw [hx, normalize_item_code,
      if_neg (by rw [filter_digit_filter_digit x, hd]; decide),
      filter_digit_filter_digit]

end Pdfata
